import Mathlib

/-!
Verification of the manifest cross-validation and protocol layer of the
graph-cli repository. The definitions below are shallow embeddings of
`src/protocols/index.js` (the `Protocol` class and the `Subgraph` class):
JavaScript values read through `get`/`getIn` are modelled as `Option`s
(`undefined` becomes `none`), a JavaScript `throw` is modelled by
`Except.error`, and immutable.js `List.reduce` accumulations that push
errors are modelled by index-carrying concatenation (`gatherAux`).
-/

namespace GraphCli

/-- One segment of a validation-error path: a field name or a list index. -/
inductive Seg where
  | str (s : String)
  | idx (n : Nat)
deriving DecidableEq

abbrev Path := List Seg

/-- A validation error: path plus human-readable message, as in the source. -/
structure VError where
  path : Path
  message : String
deriving DecidableEq

/-- A JavaScript runtime exception (e.g. calling `.map` on `undefined`). -/
inductive JsError where
  | typeError
deriving DecidableEq

/-- JavaScript string coercion used by template literals and `RegExp.test`:
`undefined` stringifies to "undefined". -/
def jsStr : Option String → String
  | none => "undefined"
  | some s => s

/-- A loaded ABI object: its `name` property and `eventSignatures()` result. -/
structure ABIObj where
  name : String
  eventSignatures : List String

/-- One entry of `mapping.abis`: the fields read by the validators. -/
structure AbiEntry where
  name : Option String := none
  file : Option String := none

/-- One data source, restricted to the fields the cross-validators read
(`kind`, `source.abi`, `source.address`, `mapping.abis`, and the `event`
field of each `mapping.eventHandlers` entry). Absent keys are `none`. -/
structure DataSource where
  kind : Option String := none
  sourceAbi : Option String := none
  sourceAddress : Option String := none
  mappingAbis : Option (List AbiEntry) := none
  mappingEventHandlers : Option (List (Option String)) := none

/-- The manifest as consumed by the cross-validators. -/
structure Manifest where
  dataSources : List DataSource

/-- The external collaborator `ABI.load(name, resolveFile(file))`: resolves
and parses an ABI file, or fails with an error message. -/
abbrev AbiLoader := Option String → Option String → Except String ABIObj

/-- Stable insertion of `x` in front of the first element `y` with
`le x y`; together with `jsSortBy` this models immutable.js `sort()`,
which is a stable sort by the default comparator. -/
def insertLe (le : α → α → Bool) (x : α) : List α → List α
  | [] => [x]
  | y :: ys => if le x y then x :: y :: ys else y :: insertLe le x ys

/-- Stable sort modelling immutable.js `List.sort()`. -/
def jsSortBy (le : α → α → Bool) (l : List α) : List α :=
  l.foldr (insertLe le) []

/-- The default comparator on possibly-undefined strings: comparisons with
`undefined` return false in JavaScript, so such pairs compare as ties. -/
def leOpt : Option String → Option String → Bool
  | some a, some b => decide (a ≤ b)
  | _, _ => true

/-- The default comparator on strings (lexicographic). -/
def leStr (a b : String) : Bool := decide (a ≤ b)

/-- `'\n  '`-joining used by the error-message templates. -/
def indentJoin (items : List String) : String := String.intercalate "\n  " items

/-- `reduce` over a list with the running index, appending each step's
pushed errors; this is the shape of every error-accumulating
`reduce((errors, x, i) => ...push..., List())` in the source. -/
def gatherAux (f : Nat → α → List VError) : Nat → List α → List VError
  | _, [] => []
  | k, x :: xs => f k x ++ gatherAux f (k + 1) xs

/-- Same accumulation when a step can throw: the first `Except.error`
aborts the whole `reduce`, as an uncaught JavaScript exception would. -/
def gatherAuxM (f : Nat → α → Except JsError (List VError)) :
    Nat → List α → Except JsError (List VError)
  | _, [] => Except.ok []
  | k, x :: xs =>
    match f k x with
    | Except.error e => Except.error e
    | Except.ok errs =>
      match gatherAuxM f (k + 1) xs with
      | Except.error e => Except.error e
      | Except.ok rest => Except.ok (errs ++ rest)

/-- The predicate of the `.filter(dataSource => dataSource.get('kind') ===
'ethereum/contract')` calls at the head of all four checks. -/
def eligibleKind (ds : DataSource) : Bool := ds.kind == some "ethereum/contract"

/-- The filtered data-source list the checks iterate over. Immutable.js
`List.filter` re-indexes its result from 0, so the indices seen by the
subsequent `reduce` are positions in this filtered list. -/
def filteredDataSources (m : Manifest) : List DataSource :=
  m.dataSources.filter eligibleKind

/-- Path of an ABI-reference error for filtered data source `i`. -/
def abiRefPath (i : Nat) : Path :=
  [Seg.str "dataSources", Seg.idx i, Seg.str "source", Seg.str "abi"]

/-- Path of an ABI-file error for filtered data source `i`, ABI `j`. -/
def abiFilePath (i j : Nat) : Path :=
  [Seg.str "dataSources", Seg.idx i, Seg.str "mapping", Seg.str "abis",
   Seg.idx j, Seg.str "file"]

/-- Path of a contract-address error for filtered data source `i`. -/
def addressPath (i : Nat) : Path :=
  [Seg.str "dataSources", Seg.idx i, Seg.str "source", Seg.str "address"]

/-- Path of an event-signature error for filtered data source `i`,
event handler `j`. -/
def eventPath (i j : Nat) : Path :=
  [Seg.str "dataSources", Seg.idx i, Seg.str "eventHandlers", Seg.idx j]

/-- The ABI-reference error message template, with the available names
sorted by the immutable.js default comparator. -/
def abiRefMessage (abiName : Option String) (abiNames : List (Option String)) : String :=
  "ABI name \x27" ++ jsStr abiName ++ "\x27 not found in mapping > abis.\n  Available ABIs:\n  "
    ++ indentJoin ((jsSortBy leOpt abiNames).map (fun n => "- " ++ jsStr n))

/-- The contract-address error message template. -/
def addressMessage (address : Option String) : String :=
  "Contract address is invalid: " ++ jsStr address
    ++ "\n  Must be 40 hexadecimal characters, with an optional \x270x\x27 prefix."

/-- The event-signature error message template. -/
def eventMessage (abi : ABIObj) (ev : Option String) : String :=
  "Event with signature \x27" ++ jsStr ev ++ "\x27 not present in ABI \x27" ++ abi.name
    ++ "\x27.\n  Available events:\n  "
    ++ indentJoin ((jsSortBy leStr abi.eventSignatures).map (fun e => "- " ++ e))

/-- Hexadecimal character class `[0-9a-fA-F]` of the address pattern. -/
def isHexChar (c : Char) : Bool :=
  c.isDigit || ('a' ≤ c && c ≤ 'f') || ('A' ≤ c && c ≤ 'F')

/-- `[0-9a-fA-F]{40}` anchored on both sides. -/
def hex40 (cs : List Char) : Bool := cs.length == 40 && cs.all isHexChar

/-- The address pattern `/^(0x)?[0-9a-fA-F]{40}$/` on a character list:
either the optional `0x` group is taken and the rest is 40 hex characters,
or the whole input is 40 hex characters. -/
def addressPatternChars (cs : List Char) : Bool :=
  (match cs with
   | c0 :: c1 :: rest => c0 == '0' && c1 == 'x' && hex40 rest
   | _ => false)
  || hex40 cs

/-- `pattern.test(address)` of `validateContractAddresses`. -/
def addressPattern (s : String) : Bool := addressPatternChars s.data

/-- The ABI-reference check body for one filtered data source: reading
`mapping.abis` of a data source that lacks it yields `undefined`, and the
`.map` call on it throws. With the names available, at most one error is
pushed, keyed by the filtered index. -/
def abiRefOne (i : Nat) (ds : DataSource) : Except JsError (List VError) :=
  match ds.mappingAbis with
  | none => Except.error JsError.typeError
  | some abis =>
    let abiNames := abis.map (fun a => a.name)
    if abiNames.contains ds.sourceAbi then Except.ok []
    else Except.ok [⟨abiRefPath i, abiRefMessage ds.sourceAbi abiNames⟩]

/-- The `abiReferenceErrors` accumulation of `Subgraph.validateAbis`. -/
def abiReferenceErrors (m : Manifest) : Except JsError (List VError) :=
  gatherAuxM abiRefOne 0 (filteredDataSources m)

/-- The ABI-file check body for one filtered data source: the inner
`reduce` over `mapping.abis` throws if that list is `undefined`; for each
ABI entry, a loader failure is caught and converted to an error at that
entry's path with the thrown message. -/
def abiFileOne (load : AbiLoader) (i : Nat) (ds : DataSource) :
    Except JsError (List VError) :=
  match ds.mappingAbis with
  | none => Except.error JsError.typeError
  | some abis =>
    Except.ok (gatherAux (fun j abi =>
      match load abi.name abi.file with
      | Except.ok _ => []
      | Except.error msg => [⟨abiFilePath i j, msg⟩]) 0 abis)

/-- The `abiFileErrors` accumulation of `Subgraph.validateAbis`. -/
def abiFileErrors (m : Manifest) (load : AbiLoader) : Except JsError (List VError) :=
  gatherAuxM (abiFileOne load) 0 (filteredDataSources m)

/-- `Subgraph.validateAbis`: reference errors are computed first, then
file errors, then both are concatenated (`List.of(...ref, ...file)`). -/
def validateAbis (m : Manifest) (load : AbiLoader) : Except JsError (List VError) :=
  match abiReferenceErrors m with
  | Except.error e => Except.error e
  | Except.ok refErrs =>
    match abiFileErrors m load with
    | Except.error e => Except.error e
    | Except.ok fileErrs => Except.ok (refErrs ++ fileErrs)

/-- The contract-address check body for one filtered data source:
`pattern.test(address)` coerces a missing address to the string
"undefined", which fails the pattern. -/
def addressOne (i : Nat) (ds : DataSource) : List VError :=
  if addressPattern (jsStr ds.sourceAddress) then []
  else [⟨addressPath i, addressMessage ds.sourceAddress⟩]

/-- `Subgraph.validateContractAddresses`. -/
def validateContractAddresses (m : Manifest) : List VError :=
  gatherAux addressOne 0 (filteredDataSources m)

/-- The fallible prefix of the event check for one data source, in source
order: read `mapping.abis` (`find` on `undefined` throws), find the entry
whose name is `source.abi` (`===`, so two `undefined`s match), load it
(`.get` on a missing entry throws, and the loader itself may throw), and
read `mapping.eventHandlers` (`.map` on `undefined` throws). -/
def resolveEventAbi (load : AbiLoader) (ds : DataSource) :
    Except Unit (ABIObj × List (Option String)) :=
  match ds.mappingAbis with
  | none => Except.error ()
  | some abis =>
    match abis.find? (fun a => a.name == ds.sourceAbi) with
    | none => Except.error ()
    | some entry =>
      match load entry.name entry.file with
      | Except.error _ => Except.error ()
      | Except.ok abi =>
        match ds.mappingEventHandlers with
        | none => Except.error ()
        | some handlers => Except.ok (abi, handlers)

/-- `abiEvents.includes(manifestEvent)`: membership by exact string
equality; a missing `event` field (`undefined`) is never a member. -/
def jsIncludes (l : List String) : Option String → Bool
  | none => false
  | some s => l.contains s

/-- The event check body for one filtered data source: the whole body is
inside `try`, and the `catch` returns the accumulator unchanged, so any
resolution failure contributes no errors. -/
def eventOne (load : AbiLoader) (i : Nat) (ds : DataSource) : List VError :=
  match resolveEventAbi load ds with
  | Except.error _ => []
  | Except.ok (abi, handlers) =>
    gatherAux (fun j ev =>
      if jsIncludes abi.eventSignatures ev then []
      else [⟨eventPath i j, eventMessage abi ev⟩]) 0 handlers

/-- `Subgraph.validateEvents`. -/
def validateEvents (m : Manifest) (load : AbiLoader) : List VError :=
  gatherAux (eventOne load) 0 (filteredDataSources m)

/-- The combined cross-validation of `Subgraph.load`:
`List.of(...validateAbis, ...validateContractAddresses, ...validateEvents)`,
evaluated left to right. -/
def crossValidate (m : Manifest) (load : AbiLoader) : Except JsError (List VError) :=
  match validateAbis m load with
  | Except.error e => Except.error e
  | Except.ok abiErrs =>
    Except.ok (abiErrs ++ validateContractAddresses m ++ validateEvents m load)

/-- The errors of a collection whose path equals `p`. -/
def errorsAt (l : List VError) (p : Path) : List VError :=
  l.filter (fun e => decide (e.path = p))

/-- `Protocol.availableProtocols()`: each protocol with its accepted
kind aliases. -/
def availableProtocols : List (String × List String) :=
  [("ethereum", ["ethereum", "ethereum/contract"]),
   ("near", ["near"]),
   ("cosmos", ["cosmos"])]

/-- `Protocol.normalizeName`: `findKey` of the first protocol whose alias
list `includes` the given kind; `undefined` when none does. -/
def normalizeName (name : Option String) : Option String :=
  (availableProtocols.find? (fun p => p.2.any (fun a => some a == name))).map
    (fun p => p.1)

/-- `Protocol.fromDataSources`: reads `dataSourcesAndTemplates[0].kind`,
which throws on an empty list, and builds a protocol from it; the
protocol's `name` is the normalized kind. -/
def fromDataSources (l : List DataSource) : Except JsError (Option String) :=
  match l with
  | [] => Except.error JsError.typeError
  | d :: _ => Except.ok (normalizeName d.kind)

/-- `Protocol.hasABIs`: a `switch` with no default, so an unmatched name
falls through to `undefined`. -/
def hasABIs : Option String → Option Bool
  | some "ethereum" => some true
  | some "near" => some false
  | some "cosmos" => some false
  | _ => none

/-- `Protocol.hasContract`. -/
def hasContract : Option String → Option Bool
  | some "ethereum" => some true
  | some "near" => some true
  | some "cosmos" => some false
  | _ => none

/-- `Protocol.hasEvents`. -/
def hasEvents : Option String → Option Bool
  | some "ethereum" => some true
  | some "near" => some false
  | some "cosmos" => some false
  | _ => none

/-- `Protocol.hasTemplates`. -/
def hasTemplates : Option String → Option Bool
  | some "ethereum" => some true
  | some "near" => some false
  | some "cosmos" => some false
  | _ => none

/-- JavaScript truthiness of a possibly-undefined boolean. -/
def truthy : Option Bool → Bool
  | some b => b
  | none => false

/-- A factory result: a constructed object, `null`, or `undefined`
(`switch` fall-through). -/
inductive JsVal where
  | obj (tag : String)
  | nullv
  | undef
deriving DecidableEq

/-- `Protocol.getTypeGenerator`: returns `null` for near and cosmos. -/
def getTypeGenerator : Option String → JsVal
  | some "ethereum" => JsVal.obj "EthereumTypeGenerator"
  | some "near" => JsVal.nullv
  | some "cosmos" => JsVal.nullv
  | _ => JsVal.undef

/-- `Protocol.getABI`: returns `null` for near and cosmos. -/
def getABI : Option String → JsVal
  | some "ethereum" => JsVal.obj "EthereumABI"
  | some "near" => JsVal.nullv
  | some "cosmos" => JsVal.nullv
  | _ => JsVal.undef

/-- `Protocol.getTemplateCodeGen`: throws when `hasTemplates()` is not
truthy, otherwise dispatches, with a throwing `default` branch. -/
def getTemplateCodeGen (name : Option String) : Except String JsVal :=
  if truthy (hasTemplates name) then
    match name with
    | some "ethereum" => Except.ok (JsVal.obj "EthereumTemplateCodeGen")
    | _ =>
      Except.error ("Template data sources with kind \x27" ++ jsStr name
        ++ "\x27 is unknown")
  else
    Except.error ("Template data sources with kind \x27" ++ jsStr name
      ++ "\x27 are not supported yet")

/-- The pushed errors of a fallible check step, empty when it threw. -/
def exceptErrors (r : Except JsError (List VError)) : List VError :=
  match r with
  | Except.ok l => l
  | Except.error _ => []

/-- The length of the returned error collection, `none` when thrown. -/
def okLength : Except JsError (List VError) → Option Nat
  | Except.ok l => some l.length
  | Except.error _ => none

/-- Whether a path is an event-handler error path of filtered data
source `i`. -/
def isEventPathOf (i : Nat) (p : Path) : Bool :=
  match p with
  | [Seg.str a, Seg.idx k, Seg.str b, Seg.idx _] =>
    a == "dataSources" && k == i && b == "eventHandlers"
  | _ => false

/-! ### Concrete fixtures used by witnesses and counterexamples -/

/-- A loader that succeeds with an ABI exposing no events. -/
def okLoader : AbiLoader := fun n _ => Except.ok ⟨jsStr n, []⟩

/-- A loader that always fails, like an unreadable ABI file. -/
def failLoader : AbiLoader := fun _ _ => Except.error "file not found"

/-- A well-formed 40-hex-character address. -/
def goodAddr : String := "1234567890123456789012345678901234567890"

def c1ds : DataSource :=
  { kind := some "ethereum", sourceAbi := some "Foo", sourceAddress := some "nothex",
    mappingAbis := some [], mappingEventHandlers := some [] }

def c1m : Manifest := ⟨[c1ds]⟩

def c1dsContract : DataSource := { c1ds with kind := some "ethereum/contract" }

def c1mContract : Manifest := ⟨[c1dsContract]⟩

def c1mNear : Manifest := ⟨[{ kind := some "near", sourceAbi := some "Foo" }]⟩

def c2ds0 : DataSource :=
  { kind := some "ethereum/contract", sourceAbi := some "A",
    sourceAddress := some "zz",
    mappingAbis := some [{ name := some "A", file := some "a.json" }],
    mappingEventHandlers := some [] }

def c2ds1 : DataSource :=
  { kind := some "ethereum/contract", sourceAbi := some "B",
    sourceAddress := some goodAddr,
    mappingAbis := some [{ name := some "A", file := some "a.json" }],
    mappingEventHandlers := some [] }

def c2m : Manifest := ⟨[c2ds0, c2ds1]⟩

def c3m : Manifest := ⟨[{ kind := some "ethereum/contract" }]⟩

def c3mOk : Manifest :=
  ⟨[{ kind := some "ethereum/contract", sourceAbi := some "A",
      sourceAddress := some goodAddr, mappingAbis := some [],
      mappingEventHandlers := some [] }]⟩

def c4abis : List AbiEntry := [{ name := some "A", file := some "a.json" }]

def c4eth : DataSource :=
  { kind := some "ethereum/contract", sourceAbi := some "B",
    sourceAddress := some goodAddr,
    mappingAbis := some c4abis,
    mappingEventHandlers := some [] }

def c4m : Manifest := ⟨[{ kind := some "near" }, c4eth]⟩

def c5m : Manifest := ⟨[{ kind := some "ethereum/contract", mappingAbis := some [] }]⟩

def c5wds : DataSource :=
  { kind := some "ethereum/contract",
    sourceAddress := some ("0x" ++ goodAddr), mappingAbis := some [] }

def c5wm : Manifest := ⟨[c5wds]⟩

def c6ds : DataSource :=
  { kind := some "ethereum/contract", sourceAbi := some "A",
    sourceAddress := some goodAddr,
    mappingAbis := some [{ name := some "A", file := some "a.json" }],
    mappingEventHandlers := some [some "Transfer(address)"] }

def c6m : Manifest := ⟨[c6ds]⟩

def c7abis : List AbiEntry := [{ name := some "A", file := some "a.json" }]

def c7eth : DataSource :=
  { kind := some "ethereum/contract", sourceAbi := some "A",
    sourceAddress := some goodAddr,
    mappingAbis := some c7abis,
    mappingEventHandlers := some [] }

def c7m : Manifest := ⟨[{ kind := some "near" }, c7eth]⟩

def c8abi : ABIObj := ⟨"A", ["Good()"]⟩

def c8loader : AbiLoader := fun _ _ => Except.ok c8abi

def c8handlers : List (Option String) := [some "Good()", some "Bad()"]

def c8ds : DataSource :=
  { kind := some "ethereum/contract", sourceAbi := some "A",
    sourceAddress := some goodAddr,
    mappingAbis := some [{ name := some "A", file := some "a.json" }],
    mappingEventHandlers := some c8handlers }

def c8m : Manifest := ⟨[c8ds]⟩

/-! ### Shared lemmas about the indexed accumulations -/

theorem mem_gatherAux {f : Nat → α → List VError} :
    ∀ {k : Nat} {xs : List α} {e : VError}, e ∈ gatherAux f k xs →
      ∃ j x, xs.get? j = some x ∧ e ∈ f (k + j) x := by
  intro k xs
  induction xs generalizing k with
  | nil => intro e h; simp [gatherAux] at h
  | cons x xs ih =>
    intro e h
    rw [gatherAux, List.mem_append] at h
    rcases h with h | h
    · exact ⟨0, x, rfl, by simpa using h⟩
    · rcases ih h with ⟨j, y, hy, hmem⟩
      refine ⟨j + 1, y, by simpa using hy, ?_⟩
      have : k + 1 + j = k + (j + 1) := by omega
      rwa [this] at hmem

theorem filter_gatherAux (p : VError → Bool) (f : Nat → α → List VError) :
    ∀ (k : Nat) (xs : List α),
      (gatherAux f k xs).filter p = gatherAux (fun i x => (f i x).filter p) k xs := by
  intro k xs
  induction xs generalizing k with
  | nil => rfl
  | cons x xs ih => rw [gatherAux, gatherAux, List.filter_append, ih]

theorem filter_eq_nil_of {α : Type _} {p : α → Bool} :
    ∀ {l : List α}, (∀ e ∈ l, p e = false) → l.filter p = [] := by
  intro l
  induction l with
  | nil => intro _; rfl
  | cons x xs ih =>
    intro h
    rw [List.filter_cons, h x (by simp)]
    simp only [Bool.false_eq_true, if_false]
    exact ih (fun e he => h e (by simp [he]))

theorem gatherAux_eq_nil {f : Nat → α → List VError} :
    ∀ {k : Nat} {xs : List α},
      (∀ j x, xs.get? j = some x → f (k + j) x = []) → gatherAux f k xs = [] := by
  intro k xs
  induction xs generalizing k with
  | nil => intro _; rfl
  | cons x xs ih =>
    intro h
    have h0 := h 0 x (by simp)
    rw [Nat.add_zero] at h0
    rw [gatherAux, h0]
    rw [List.nil_append]
    apply ih
    intro j y hy
    have := h (j + 1) y (by simpa using hy)
    have harith : k + (j + 1) = k + 1 + j := by omega
    rwa [harith] at this

theorem gatherAux_single {f : Nat → α → List VError} :
    ∀ {k i : Nat} {xs : List α} {x : α}, xs.get? i = some x →
      (∀ j y, xs.get? j = some y → j ≠ i → f (k + j) y = []) →
      gatherAux f k xs = f (k + i) x := by
  intro k i xs
  induction xs generalizing k i with
  | nil => intro x hx; simp at hx
  | cons y ys ih =>
    intro x hx h
    cases i with
    | zero =>
      have hxy : y = x := by simpa using hx
      rw [gatherAux]
      have hrest : gatherAux f (k + 1) ys = [] := by
        apply gatherAux_eq_nil
        intro j z hz
        have := h (j + 1) z (by simpa using hz) (by omega)
        have harith : k + (j + 1) = k + 1 + j := by omega
        rwa [harith] at this
      rw [hrest, List.append_nil, hxy, Nat.add_zero]
    | succ i' =>
      have hhead : f k y = [] := by simpa using h 0 y (by simp) (by omega)
      rw [gatherAux, hhead, List.nil_append]
      have hx' : ys.get? i' = some x := by simpa using hx
      have h' : ∀ j z, ys.get? j = some z → j ≠ i' → f (k + 1 + j) z = [] := by
        intro j z hz hji
        have := h (j + 1) z (by simpa using hz) (by omega)
        have harith : k + (j + 1) = k + 1 + j := by omega
        rwa [harith] at this
      have := ih hx' h'
      have harith : k + 1 + i' = k + (i' + 1) := by omega
      rwa [harith] at this

theorem gatherAuxM_ok {f : Nat → α → Except JsError (List VError)} :
    ∀ {k : Nat} {xs : List α},
      (∀ j x, xs.get? j = some x → ∃ l, f (k + j) x = Except.ok l) →
      gatherAuxM f k xs = Except.ok (gatherAux (fun i x => exceptErrors (f i x)) k xs) := by
  intro k xs
  induction xs generalizing k with
  | nil => intro _; rfl
  | cons x xs ih =>
    intro h
    rcases h 0 x (by simp) with ⟨l, hl⟩
    rw [Nat.add_zero] at hl
    rw [gatherAuxM, hl]
    have h' : ∀ j y, xs.get? j = some y → ∃ l, f (k + 1 + j) y = Except.ok l := by
      intro j y hy
      have := h (j + 1) y (by simpa using hy)
      have harith : k + (j + 1) = k + 1 + j := by omega
      rwa [harith] at this
    rw [ih h', gatherAux]
    have : exceptErrors (f k x) = l := by rw [hl]; rfl
    rw [this]

theorem mem_exceptErrors_abiRefOne {i : Nat} {ds : DataSource} :
    ∀ e ∈ exceptErrors (abiRefOne i ds), e.path = abiRefPath i := by
  intro e he
  unfold abiRefOne at he
  rcases hm : ds.mappingAbis with _ | abis
  · rw [hm] at he; simp [exceptErrors] at he
  · rw [hm] at he
    by_cases hc : (abis.map (fun a => a.name)).contains ds.sourceAbi
    · simp only [hc, if_true] at he; simp [exceptErrors] at he
    · simp only [hc, if_false] at he
      simp [exceptErrors] at he
      rw [he]

theorem mem_exceptErrors_abiFileOne {load : AbiLoader} {i : Nat} {ds : DataSource} :
    ∀ e ∈ exceptErrors (abiFileOne load i ds), ∃ j, e.path = abiFilePath i j := by
  intro e he
  unfold abiFileOne at he
  rcases hm : ds.mappingAbis with _ | abis
  · rw [hm] at he; simp [exceptErrors] at he
  · rw [hm] at he
    simp only [exceptErrors] at he
    rcases mem_gatherAux he with ⟨j, abi, _, hmem⟩
    rcases hl : load abi.name abi.file with msg | a
    · rw [hl] at hmem
      simp at hmem
      exact ⟨j, by rw [hmem]⟩
    · rw [hl] at hmem; simp at hmem

theorem mem_addressOne {i : Nat} {ds : DataSource} :
    ∀ e ∈ addressOne i ds, e.path = addressPath i := by
  intro e he
  unfold addressOne at he
  by_cases hp : addressPattern (jsStr ds.sourceAddress)
  · simp [hp] at he
  · simp only [hp, if_false, Bool.false_eq_true] at he
    simp at he
    rw [he]

theorem mem_eventOne {load : AbiLoader} {i : Nat} {ds : DataSource} :
    ∀ e ∈ eventOne load i ds, ∃ j, e.path = eventPath i j := by
  intro e he
  unfold eventOne at he
  rcases hr : resolveEventAbi load ds with u | p
  · rw [hr] at he; simp at he
  · rw [hr] at he
    rcases mem_gatherAux he with ⟨j, ev, _, hmem⟩
    by_cases hc : jsIncludes p.1.eventSignatures ev
    · simp [hc] at hmem
    · simp only [hc, if_false, Bool.false_eq_true] at hmem
      simp at hmem
      exact ⟨j, by rw [hmem]⟩

theorem abiRefPath_inj {j i : Nat} : abiRefPath j = abiRefPath i ↔ j = i := by
  simp [abiRefPath]

theorem abiFilePath_ne_abiRefPath {k j i : Nat} : abiFilePath k j ≠ abiRefPath i := by
  simp [abiFilePath, abiRefPath]

theorem abiFilePath_inj {k j i j' : Nat} :
    abiFilePath k j = abiFilePath i j' ↔ k = i ∧ j = j' := by
  simp [abiFilePath]

theorem addressPath_inj {j i : Nat} : addressPath j = addressPath i ↔ j = i := by
  simp [addressPath]

theorem eventPath_inj {k j i j' : Nat} :
    eventPath k j = eventPath i j' ↔ k = i ∧ j = j' := by
  simp [eventPath]

theorem isEventPathOf_eventPath {i k j : Nat} :
    isEventPathOf i (eventPath k j) = (k == i) := by
  simp [isEventPathOf, eventPath]

/-! ### The stable sort: permutation and sortedness -/

theorem perm_insertLe (le : α → α → Bool) (x : α) :
    ∀ (l : List α), (insertLe le x l).Perm (x :: l) := by
  intro l
  induction l with
  | nil => exact List.Perm.refl _
  | cons y ys ih =>
    rw [insertLe]
    by_cases h : le x y
    · rw [if_pos h]
    · rw [if_neg h]
      exact (ih.cons y).trans (List.Perm.swap x y ys)

theorem perm_jsSortBy (le : α → α → Bool) :
    ∀ (l : List α), (jsSortBy le l).Perm l := by
  intro l
  induction l with
  | nil => exact List.Perm.refl _
  | cons y ys ih =>
    have : jsSortBy le (y :: ys) = insertLe le y (jsSortBy le ys) := rfl
    rw [this]
    exact (perm_insertLe le y (jsSortBy le ys)).trans (ih.cons y)

theorem pairwise_insertLe {le : α → α → Bool}
    (htot : ∀ a b, le a b = true ∨ le b a = true)
    (htrans : ∀ a b c, le a b = true → le b c = true → le a c = true) (x : α) :
    ∀ {l : List α}, l.Pairwise (fun a b => le a b = true) →
      (insertLe le x l).Pairwise (fun a b => le a b = true) := by
  intro l
  induction l with
  | nil => intro _; simp [insertLe]
  | cons y ys ih =>
    intro hp
    rw [insertLe]
    rcases List.pairwise_cons.mp hp with ⟨hy, hys⟩
    by_cases h : le x y
    · rw [if_pos h]
      refine List.pairwise_cons.mpr ⟨?_, hp⟩
      intro z hz
      rcases List.mem_cons.mp hz with hz | hz
      · rw [hz]; exact h
      · exact htrans x y z h (hy z hz)
    · rw [if_neg h]
      refine List.pairwise_cons.mpr ⟨?_, ih hys⟩
      intro z hz
      have hz' := (perm_insertLe le x ys).mem_iff.mp hz
      rcases List.mem_cons.mp hz' with hz' | hz'
      · rw [hz']
        rcases htot x y with hxy | hyx
        · exact absurd hxy h
        · exact hyx
      · exact hy z hz'

theorem pairwise_jsSortBy {le : α → α → Bool}
    (htot : ∀ a b, le a b = true ∨ le b a = true)
    (htrans : ∀ a b c, le a b = true → le b c = true → le a c = true) :
    ∀ (l : List α), (jsSortBy le l).Pairwise (fun a b => le a b = true) := by
  intro l
  induction l with
  | nil => simp [jsSortBy]
  | cons y ys ih =>
    have : jsSortBy le (y :: ys) = insertLe le y (jsSortBy le ys) := rfl
    rw [this]
    exact pairwise_insertLe htot htrans y ih

theorem leStr_total : ∀ a b : String, leStr a b = true ∨ leStr b a = true := by
  intro a b
  rcases le_total a b with h | h
  · exact Or.inl (by simp [leStr, h])
  · exact Or.inr (by simp [leStr, h])

theorem leStr_trans : ∀ a b c : String, leStr a b = true → leStr b c = true →
    leStr a c = true := by
  intro a b c hab hbc
  simp only [leStr, decide_eq_true_eq] at *
  exact le_trans hab hbc

theorem insertLe_map_some (x : String) :
    ∀ (l : List String),
      insertLe leOpt (some x) (l.map some) = (insertLe leStr x l).map some := by
  intro l
  induction l with
  | nil => rfl
  | cons y ys ih =>
    show insertLe leOpt (some x) (some y :: ys.map some) = _
    rw [insertLe, insertLe]
    have : leOpt (some x) (some y) = leStr x y := rfl
    rw [this]
    by_cases h : leStr x y
    · rw [if_pos h, if_pos h]; rfl
    · rw [if_neg h, if_neg h, List.map_cons, ih]

theorem jsSortBy_map_some :
    ∀ (ns : List String),
      jsSortBy leOpt (ns.map some) = (jsSortBy leStr ns).map some := by
  intro ns
  induction ns with
  | nil => rfl
  | cons y ys ih =>
    show insertLe leOpt (some y) (jsSortBy leOpt (ys.map some)) = _
    rw [ih]
    exact insertLe_map_some y (jsSortBy leStr ys)

theorem mem_of_get? {l : List α} :
    ∀ {i : Nat} {x : α}, l.get? i = some x → x ∈ l := by
  induction l with
  | nil => intro i x h; simp at h
  | cons y ys ih =>
    intro i x h
    cases i with
    | zero => simp at h; simp [h]
    | succ i' => exact List.mem_cons_of_mem y (ih (by simpa using h))

theorem filter_gatherAux_at {f : Nat → α → List VError} {xs : List α} {i : Nat}
    {x : α} {p : Path} (hx : xs.get? i = some x)
    (hne : ∀ j y, xs.get? j = some y → j ≠ i → ∀ e ∈ f j y, e.path ≠ p) :
    (gatherAux f 0 xs).filter (fun e => decide (e.path = p)) =
      (f i x).filter (fun e => decide (e.path = p)) := by
  rw [filter_gatherAux]
  have hz : ∀ j y, xs.get? j = some y → j ≠ i →
      (fun j y => (f j y).filter (fun e => decide (e.path = p))) (0 + j) y = [] := by
    intro j y hy hji
    rw [Nat.zero_add]
    apply filter_eq_nil_of
    intro e he
    exact decide_eq_false (hne j y hy hji e he)
  have := gatherAux_single (f := fun j y => (f j y).filter (fun e => decide (e.path = p)))
    hx hz
  rwa [Nat.zero_add] at this

theorem filter_singleton_self {e : VError} {p : Path} (h : e.path = p) :
    [e].filter (fun e => decide (e.path = p)) = [e] := by
  simp [List.filter, h]

theorem abiReferenceErrors_ok {m : Manifest}
    (hall : ∀ ds ∈ filteredDataSources m, ds.mappingAbis.isSome) :
    abiReferenceErrors m = Except.ok
      (gatherAux (fun i x => exceptErrors (abiRefOne i x)) 0 (filteredDataSources m)) := by
  apply gatherAuxM_ok
  intro j x hx
  have hsome := hall x (mem_of_get? hx)
  rcases hs : x.mappingAbis with _ | abis
  · rw [hs] at hsome; simp at hsome
  · by_cases hc : (((abis.map (fun a => a.name)).contains x.sourceAbi) = true)
    · refine ⟨[], ?_⟩
      unfold abiRefOne
      rw [hs]
      show (if (abis.map (fun a => a.name)).contains x.sourceAbi then
          (Except.ok [] : Except JsError (List VError))
        else Except.ok [⟨abiRefPath (0 + j),
          abiRefMessage x.sourceAbi (abis.map (fun a => a.name))⟩]) = Except.ok []
      rw [if_pos hc]
    · refine ⟨[⟨abiRefPath (0 + j),
        abiRefMessage x.sourceAbi (abis.map (fun a => a.name))⟩], ?_⟩
      unfold abiRefOne
      rw [hs]
      show (if (abis.map (fun a => a.name)).contains x.sourceAbi then
          (Except.ok [] : Except JsError (List VError))
        else Except.ok [⟨abiRefPath (0 + j),
          abiRefMessage x.sourceAbi (abis.map (fun a => a.name))⟩]) = _
      rw [if_neg hc]

theorem abiFileErrors_ok {m : Manifest} {load : AbiLoader}
    (hall : ∀ ds ∈ filteredDataSources m, ds.mappingAbis.isSome) :
    abiFileErrors m load = Except.ok
      (gatherAux (fun i x => exceptErrors (abiFileOne load i x)) 0
        (filteredDataSources m)) := by
  apply gatherAuxM_ok
  intro j x hx
  have hsome := hall x (mem_of_get? hx)
  rcases hs : x.mappingAbis with _ | abis
  · rw [hs] at hsome; simp at hsome
  · exact ⟨_, by unfold abiFileOne; rw [hs]⟩

theorem validateAbis_ok {m : Manifest} {load : AbiLoader}
    (hall : ∀ ds ∈ filteredDataSources m, ds.mappingAbis.isSome) :
    validateAbis m load = Except.ok
      (gatherAux (fun i x => exceptErrors (abiRefOne i x)) 0 (filteredDataSources m) ++
       gatherAux (fun i x => exceptErrors (abiFileOne load i x)) 0
        (filteredDataSources m)) := by
  unfold validateAbis
  rw [abiReferenceErrors_ok hall, abiFileErrors_ok hall]

/-! ### Claims -/

/-- C10: `fromDataSources` on a non-empty list returns a protocol whose
name is the normalized kind of the first entry alone (later entries are
irrelevant); an unknown first kind normalizes to `none` rather than
raising; the empty list throws on indexing the missing first element. -/
theorem c10_fromDataSources_first_kind :
    (∀ (d : DataSource) (rest rest2 : List DataSource),
        fromDataSources (d :: rest) = Except.ok (normalizeName d.kind) ∧
        fromDataSources (d :: rest) = fromDataSources (d :: rest2)) ∧
    fromDataSources [] = Except.error JsError.typeError ∧
    (∀ s : String, s ≠ "ethereum" → s ≠ "ethereum/contract" → s ≠ "near" →
      s ≠ "cosmos" → normalizeName (some s) = none) := by
  refine ⟨fun d rest rest2 => ⟨rfl, rfl⟩, rfl, ?_⟩
  intro s h1 h2 h3 h4
  have e1 : ("ethereum" == s) = false := beq_eq_false_iff_ne.mpr (Ne.symm h1)
  have e2 : ("ethereum/contract" == s) = false := beq_eq_false_iff_ne.mpr (Ne.symm h2)
  have e3 : ("near" == s) = false := beq_eq_false_iff_ne.mpr (Ne.symm h3)
  have e4 : ("cosmos" == s) = false := beq_eq_false_iff_ne.mpr (Ne.symm h4)
  simp [normalizeName, availableProtocols, List.find?, List.any, e1, e2, e3, e4]

/-- Witness for C10 at a concrete unknown kind. -/
theorem c10_fromDataSources_first_kind_witness :
    ("fuel" ≠ "ethereum" ∧ "fuel" ≠ "ethereum/contract" ∧ "fuel" ≠ "near" ∧
      "fuel" ≠ "cosmos") ∧ normalizeName (some "fuel") = none :=
  ⟨⟨by decide, by decide, by decide, by decide⟩,
    c10_fromDataSources_first_kind.2.2 "fuel" (by decide) (by decide) (by decide)
      (by decide)⟩

/-- C9 (amended): only the template code generator fails loudly — it
throws for every protocol name whose `hasTemplates` capability is not
truthy — while the ABI accessor and the type generator return `null`,
not an error, for the variants whose `hasABIs` capability is false. -/
theorem c9_template_loud_abi_null :
    (∀ name : Option String, truthy (hasTemplates name) = false →
        ∃ msg, getTemplateCodeGen name = Except.error msg) ∧
    getABI (some "near") = JsVal.nullv ∧ getABI (some "cosmos") = JsVal.nullv ∧
    getTypeGenerator (some "near") = JsVal.nullv ∧
    getTypeGenerator (some "cosmos") = JsVal.nullv := by
  refine ⟨?_, rfl, rfl, rfl, rfl⟩
  intro name h
  refine ⟨"Template data sources with kind \x27" ++ jsStr name
    ++ "\x27 are not supported yet", ?_⟩
  unfold getTemplateCodeGen
  rw [h]
  rfl

/-- C9 counterexample: for the near variant `hasABIs` is false, yet
`getABI` and `getTypeGenerator` return `null` instead of raising. -/
theorem c9_counterexample :
    truthy (hasABIs (some "near")) = false ∧
    getABI (some "near") = JsVal.nullv ∧
    getTypeGenerator (some "near") = JsVal.nullv := ⟨rfl, rfl, rfl⟩

/-- Witness for C9 at the near variant. -/
theorem c9_template_loud_abi_null_witness :
    truthy (hasTemplates (some "near")) = false ∧
    (∃ msg, getTemplateCodeGen (some "near") = Except.error msg) :=
  ⟨rfl, c9_template_loud_abi_null.1 (some "near") rfl⟩

/-- C1 (amended): the four cross-validation checks are keyed to the
literal kind string `ethereum/contract`. A manifest none of whose data
sources carries that literal kind — which covers every variant without
the capability, but also the accepted alias `ethereum` — produces zero
cross-validation errors; and every data source the checks do consider
has a kind whose protocol variant has the `hasABIs` capability. -/
theorem c1_checks_keyed_to_literal_kind :
    (∀ (m : Manifest) (load : AbiLoader),
        (∀ ds ∈ m.dataSources, ds.kind ≠ some "ethereum/contract") →
        crossValidate m load = Except.ok []) ∧
    (∀ (m : Manifest) (k : String),
        truthy (hasABIs (normalizeName (some k))) = false →
        ∀ ds ∈ filteredDataSources m, ds.kind ≠ some k) := by
  constructor
  · intro m load h
    have hfilter : filteredDataSources m = [] := by
      apply filter_eq_nil_of
      intro ds hds
      exact beq_eq_false_iff_ne.mpr (h ds hds)
    simp [crossValidate, validateAbis, abiReferenceErrors, abiFileErrors,
      validateContractAddresses, validateEvents, hfilter, gatherAuxM, gatherAux]
  · intro m k hcap ds hds heq
    have hk : ds.kind = some "ethereum/contract" :=
      beq_iff_eq.mp (List.mem_filter.mp hds).2
    rw [heq] at hk
    have hk' : k = "ethereum/contract" := by simpa using hk
    rw [hk'] at hcap
    exact absurd hcap (by decide)

/-- C1 counterexample: a data source with the accepted alias kind
`ethereum` that would fail the ABI-reference check and the address check
is skipped entirely (zero errors), while the identical data source with
kind `ethereum/contract` yields two errors from those same checks. -/
theorem c1_counterexample :
    crossValidate c1m okLoader = Except.ok [] ∧
    okLength (crossValidate c1mContract okLoader) = some 2 ∧
    c1ds.kind = some "ethereum" := ⟨rfl, rfl, rfl⟩

/-- Witness for C1 at a near data source carrying an `abi` field. -/
theorem c1_checks_keyed_to_literal_kind_witness :
    (∀ ds ∈ c1mNear.dataSources, ds.kind ≠ some "ethereum/contract") ∧
    crossValidate c1mNear okLoader = Except.ok [] :=
  ⟨by decide, c1_checks_keyed_to_literal_kind.1 c1mNear okLoader (by decide)⟩

/-- C3 (amended): the address and event checks are total, and the
combined cross-validation returns an error collection without throwing
whenever every eligible data source's mapping declares an `abis` list;
but `validateAbis` throws a TypeError (see the counterexample) when an
eligible data source's mapping lacks `abis`, an input the manifest type
schema does not rule out. -/
theorem c3_cross_validate_ok_when_abis_present :
    ∀ (m : Manifest) (load : AbiLoader),
      (∀ ds ∈ filteredDataSources m, ds.mappingAbis.isSome) →
      ∃ errs, crossValidate m load = Except.ok errs := by
  intro m load h
  refine ⟨(gatherAux (fun i x => exceptErrors (abiRefOne i x)) 0 (filteredDataSources m)
      ++ gatherAux (fun i x => exceptErrors (abiFileOne load i x)) 0 (filteredDataSources m))
      ++ validateContractAddresses m ++ validateEvents m load, ?_⟩
  unfold crossValidate
  rw [validateAbis_ok h]

/-- C3 counterexample: an eligible data source whose mapping lacks the
`abis` entry makes `validateAbis` (and hence the combined validation)
throw instead of returning an error collection. -/
theorem c3_counterexample :
    validateAbis c3m okLoader = Except.error JsError.typeError ∧
    crossValidate c3m okLoader = Except.error JsError.typeError := ⟨rfl, rfl⟩

/-- Witness for C3 at a manifest whose eligible data source declares an
(empty) `abis` list. -/
theorem c3_cross_validate_ok_when_abis_present_witness :
    (∀ ds ∈ filteredDataSources c3mOk, ds.mappingAbis.isSome) ∧
    (∃ errs, crossValidate c3mOk okLoader = Except.ok errs) :=
  ⟨by decide, c3_cross_validate_ok_when_abis_present c3mOk okLoader (by decide)⟩

/-- C5 (amended): for the eligible data source at filtered position `i`,
the address check emits exactly one error at its address path precisely
when the JavaScript stringification of `source.address` fails the
40-hex-with-optional-0x pattern — so an absent address, stringified to
"undefined", produces an error rather than none; and the pattern accepts
a character list exactly when it is 40 hex characters, optionally
preceded by `0x`. -/
theorem c5_address_check :
    (∀ (m : Manifest) (i : Nat) (ds : DataSource),
        (filteredDataSources m).get? i = some ds →
        errorsAt (validateContractAddresses m) (addressPath i) =
          (if addressPattern (jsStr ds.sourceAddress) then []
           else [⟨addressPath i, addressMessage ds.sourceAddress⟩])) ∧
    (∀ cs : List Char, addressPatternChars cs = true ↔
        (hex40 cs = true ∨ ∃ rest, cs = '0' :: 'x' :: rest ∧ hex40 rest = true)) := by
  constructor
  · intro m i ds hx
    unfold errorsAt validateContractAddresses
    rw [filter_gatherAux_at hx ?hne]
    case hne =>
      intro j y _ hji e he
      rw [mem_addressOne e he]
      intro hcontra
      exact hji (addressPath_inj.mp hcontra)
    unfold addressOne
    by_cases hp : (addressPattern (jsStr ds.sourceAddress) = true)
    · rw [if_pos hp]
      rfl
    · rw [if_neg hp]
      exact filter_singleton_self rfl
  · intro cs
    rcases cs with _ | ⟨c0, cs'⟩
    · simp [addressPatternChars, hex40]
    · rcases cs' with _ | ⟨c1, rest⟩
      · simp [addressPatternChars, hex40]
      · show ((c0 == '0' && c1 == 'x' && hex40 rest) || hex40 (c0 :: c1 :: rest)) = true ↔ _
        simp only [Bool.or_eq_true, Bool.and_eq_true, beq_iff_eq, List.cons.injEq]
        constructor
        · rintro (⟨⟨h0, h1⟩, hh⟩ | hh)
          · exact Or.inr ⟨rest, ⟨h0, h1, rfl⟩, hh⟩
          · exact Or.inl hh
        · rintro (hh | ⟨r, ⟨h0, h1, hr⟩, hh⟩)
          · exact Or.inr hh
          · exact Or.inl ⟨⟨h0, h1⟩, by rw [hr]; exact hh⟩

/-- C5 counterexample: an eligible data source with no `source.address`
at all receives an address error (the address stringifies to
"undefined"), where the claim says it yields none. -/
theorem c5_counterexample :
    validateContractAddresses c5m = [⟨addressPath 0, addressMessage none⟩] ∧
    addressMessage none =
      "Contract address is invalid: undefined\n  Must be 40 hexadecimal characters, with an optional \x270x\x27 prefix." :=
  ⟨rfl, rfl⟩

/-- Witness for C5 at a data source with a valid 0x-prefixed address. -/
theorem c5_address_check_witness :
    (filteredDataSources c5wm).get? 0 = some c5wds ∧
    errorsAt (validateContractAddresses c5wm) (addressPath 0) =
      (if addressPattern (jsStr c5wds.sourceAddress) then []
       else [⟨addressPath 0, addressMessage c5wds.sourceAddress⟩]) :=
  ⟨rfl, c5_address_check.1 c5wm 0 c5wds rfl⟩

/-- C6: when the ABI of an eligible data source cannot be resolved (the
entry is missing, the loader throws, or the handler list is absent), the
event check contributes zero event errors for that data source — the
whole per-data-source body is inside `try` and the `catch` returns the
accumulator unchanged, so the failure is not duplicated as event errors
nor propagated as an exception (`validateEvents` is total by type). -/
theorem c6_events_skipped_on_abi_failure :
    ∀ (m : Manifest) (load : AbiLoader) (i : Nat) (ds : DataSource),
      (filteredDataSources m).get? i = some ds →
      resolveEventAbi load ds = Except.error () →
      (validateEvents m load).filter (fun e => isEventPathOf i e.path) = [] := by
  intro m load i ds hx hres
  unfold validateEvents
  rw [filter_gatherAux]
  apply gatherAux_eq_nil
  intro j y hy
  rw [Nat.zero_add]
  by_cases hji : j = i
  · subst hji
    have hyx : y = ds := by
      rw [hx] at hy
      exact (Option.some.inj hy).symm
    rw [hyx]
    have hnil : eventOne load j ds = [] := by
      unfold eventOne
      rw [hres]
    rw [hnil]
    rfl
  · apply filter_eq_nil_of
    intro e he
    rcases mem_eventOne e he with ⟨j', hpath⟩
    rw [hpath, isEventPathOf_eventPath]
    exact beq_eq_false_iff_ne.mpr hji

/-- Witness for C6: a failing loader yields zero event errors for the
eligible data source. -/
theorem c6_events_skipped_on_abi_failure_witness :
    (filteredDataSources c6m).get? 0 = some c6ds ∧
    resolveEventAbi failLoader c6ds = Except.error () ∧
    (validateEvents c6m failLoader).filter (fun e => isEventPathOf 0 e.path) = [] :=
  ⟨rfl, rfl, c6_events_skipped_on_abi_failure c6m failLoader 0 c6ds rfl rfl⟩

/-- C4 (amended): for the eligible data source at filtered position `i`
(not its position in the full data-source list; the checks run on the
re-indexed filtered list), whose mapping declares `abis`, the combined
ABI validation succeeds and contains, at path `dataSources/i/source/abi`,
exactly one error when `source.abi` is missing from the declared names —
with a message listing the declared names sorted by the stable default
comparator, which on actual strings is the lexicographic order — and no
error when it is present. -/
theorem c4_abi_reference_check :
    ∀ (m : Manifest) (load : AbiLoader) (i : Nat) (ds : DataSource)
      (abis : List AbiEntry),
      (∀ d ∈ filteredDataSources m, d.mappingAbis.isSome) →
      (filteredDataSources m).get? i = some ds →
      ds.mappingAbis = some abis →
      (∃ l, validateAbis m load = Except.ok l ∧
        errorsAt l (abiRefPath i) =
          (if (abis.map (fun a => a.name)).contains ds.sourceAbi then []
           else [⟨abiRefPath i,
             abiRefMessage ds.sourceAbi (abis.map (fun a => a.name))⟩])) ∧
      (∀ ns : List String,
        jsSortBy leOpt (ns.map some) = (jsSortBy leStr ns).map some ∧
        (jsSortBy leStr ns).Pairwise (fun a b => a ≤ b) ∧
        (jsSortBy leStr ns).Perm ns) := by
  intro m load i ds abis hall hx hm
  constructor
  · refine ⟨_, validateAbis_ok hall, ?_⟩
    unfold errorsAt
    rw [List.filter_append]
    have hfileNil : (gatherAux (fun i x => exceptErrors (abiFileOne load i x)) 0
        (filteredDataSources m)).filter (fun e => decide (e.path = abiRefPath i)) = [] := by
      apply filter_eq_nil_of
      intro e he
      rcases mem_gatherAux he with ⟨j, y, _, hmem⟩
      rcases mem_exceptErrors_abiFileOne e hmem with ⟨j', hpath⟩
      rw [hpath]
      exact decide_eq_false abiFilePath_ne_abiRefPath
    rw [hfileNil, List.append_nil]
    rw [filter_gatherAux_at hx ?hne]
    case hne =>
      intro j y _ hji e he
      rw [mem_exceptErrors_abiRefOne e he]
      intro hcontra
      exact hji (abiRefPath_inj.mp hcontra)
    unfold abiRefOne
    rw [hm]
    show (exceptErrors (if (abis.map (fun a => a.name)).contains ds.sourceAbi then
        Except.ok [] else Except.ok [⟨abiRefPath i,
          abiRefMessage ds.sourceAbi (abis.map (fun a => a.name))⟩])).filter
        (fun e => decide (e.path = abiRefPath i)) = _
    by_cases hc : (((abis.map (fun a => a.name)).contains ds.sourceAbi) = true)
    · simp only [if_pos hc]
      rfl
    · simp only [if_neg hc]
      exact filter_singleton_self rfl
  · intro ns
    refine ⟨jsSortBy_map_some ns, ?_, perm_jsSortBy leStr ns⟩
    have hp := pairwise_jsSortBy leStr_total leStr_trans ns
    exact hp.imp (fun h => by simpa [leStr, decide_eq_true_eq] using h)

/-- C4 counterexample: with a near data source first and the offending
`ethereum/contract` data source second (manifest index 1), the single
ABI-reference error carries filtered index 0 in its path, not the data
source's index in the manifest. -/
theorem c4_counterexample :
    validateAbis c4m okLoader =
      Except.ok [⟨abiRefPath 0, abiRefMessage (some "B") [some "A"]⟩] ∧
    c4m.dataSources.map (fun d => d.kind) = [some "near", some "ethereum/contract"] ∧
    c4eth.sourceAbi = some "B" := ⟨rfl, rfl, rfl⟩

/-- Witness for C4 at the concrete two-data-source manifest. -/
theorem c4_abi_reference_check_witness :
    ((∀ d ∈ filteredDataSources c4m, d.mappingAbis.isSome) ∧
      (filteredDataSources c4m).get? 0 = some c4eth ∧
      c4eth.mappingAbis = some c4abis) ∧
    (∃ l, validateAbis c4m okLoader = Except.ok l ∧
      errorsAt l (abiRefPath 0) =
        (if (c4abis.map (fun a => a.name)).contains c4eth.sourceAbi then []
         else [⟨abiRefPath 0,
           abiRefMessage c4eth.sourceAbi (c4abis.map (fun a => a.name))⟩])) :=
  ⟨⟨by decide, rfl, rfl⟩,
    (c4_abi_reference_check c4m okLoader 0 c4eth c4abis (by decide) rfl rfl).1⟩

/-- C7 (amended): a loader failure on a declared ABI is caught and
converted into exactly one error at `dataSources/i/mapping/abis/j/file`
— where `i` is the data source's filtered position, not its index in the
manifest — whose message is the loader's message verbatim, and the ABI
validation still returns a collection (`Except.ok`), so no raw loader
exception escapes the check. -/
theorem c7_abi_file_check :
    ∀ (m : Manifest) (load : AbiLoader) (i : Nat) (ds : DataSource)
      (abis : List AbiEntry) (j : Nat) (abi : AbiEntry),
      (∀ d ∈ filteredDataSources m, d.mappingAbis.isSome) →
      (filteredDataSources m).get? i = some ds →
      ds.mappingAbis = some abis →
      abis.get? j = some abi →
      ∃ l, validateAbis m load = Except.ok l ∧
        errorsAt l (abiFilePath i j) =
          (match load abi.name abi.file with
           | Except.ok _ => []
           | Except.error msg => [⟨abiFilePath i j, msg⟩]) := by
  intro m load i ds abis j abi hall hx hm hj
  refine ⟨_, validateAbis_ok hall, ?_⟩
  unfold errorsAt
  rw [List.filter_append]
  have hrefNil : (gatherAux (fun i x => exceptErrors (abiRefOne i x)) 0
      (filteredDataSources m)).filter (fun e => decide (e.path = abiFilePath i j)) = [] := by
    apply filter_eq_nil_of
    intro e he
    rcases mem_gatherAux he with ⟨k, y, _, hmem⟩
    rw [mem_exceptErrors_abiRefOne e hmem]
    exact decide_eq_false (Ne.symm abiFilePath_ne_abiRefPath)
  rw [hrefNil, List.nil_append]
  rw [filter_gatherAux_at hx ?hne]
  case hne =>
    intro k y _ hki e he
    rcases mem_exceptErrors_abiFileOne e he with ⟨j', hpath⟩
    rw [hpath]
    intro hcontra
    exact hki (abiFilePath_inj.mp hcontra).1
  unfold abiFileOne
  rw [hm]
  show (gatherAux (fun j' abi' =>
      match load abi'.name abi'.file with
      | Except.ok _ => []
      | Except.error msg => [⟨abiFilePath i j', msg⟩]) 0 abis).filter
      (fun e => decide (e.path = abiFilePath i j)) = _
  rw [filter_gatherAux_at hj ?hne2]
  case hne2 =>
    intro k y _ hkj e he
    rcases hl : load y.name y.file with msg | a
    · rw [hl] at he
      simp at he
      rw [he]
      intro hcontra
      exact hkj (abiFilePath_inj.mp hcontra).2
    · rw [hl] at he
      simp at he
  rcases hl : load abi.name abi.file with msg | a
  · exact filter_singleton_self rfl
  · rfl

/-- C7 counterexample: with a near data source at manifest index 0 and
the `ethereum/contract` data source declaring the failing ABI at
manifest index 1, the converted error's path carries filtered index 0 —
it is not located at that ABI's path in the manifest tree. -/
theorem c7_counterexample :
    validateAbis c7m failLoader =
      Except.ok [⟨abiFilePath 0 0, "file not found"⟩] ∧
    c7m.dataSources.map (fun d => d.kind) = [some "near", some "ethereum/contract"] :=
  ⟨rfl, rfl⟩

/-- Witness for C7 at the concrete manifest with a failing loader. -/
theorem c7_abi_file_check_witness :
    ((∀ d ∈ filteredDataSources c7m, d.mappingAbis.isSome) ∧
      (filteredDataSources c7m).get? 0 = some c7eth ∧
      c7eth.mappingAbis = some c7abis ∧
      c7abis.get? 0 = some { name := some "A", file := some "a.json" }) ∧
    (∃ l, validateAbis c7m failLoader = Except.ok l ∧
      errorsAt l (abiFilePath 0 0) =
        (match failLoader (some "A") (some "a.json") with
         | Except.ok _ => []
         | Except.error msg => [⟨abiFilePath 0 0, msg⟩])) :=
  ⟨⟨by decide, rfl, rfl, rfl⟩,
    c7_abi_file_check c7m failLoader 0 c7eth c7abis 0
      { name := some "A", file := some "a.json" } (by decide) rfl rfl rfl⟩

/-- C8: once the ABI of an eligible data source resolves, an
event-handler signature is accepted exactly when the string is a member
of the ABI's event-signature list (exact string equality, so any
whitespace or casing difference fails), and a rejected signature yields
exactly one error at its handler path whose message lists the available
events sorted lexicographically. -/
theorem c8_event_exact_membership :
    ∀ (m : Manifest) (load : AbiLoader) (i : Nat) (ds : DataSource)
      (abi : ABIObj) (handlers : List (Option String)) (j : Nat) (ev : Option String),
      (filteredDataSources m).get? i = some ds →
      resolveEventAbi load ds = Except.ok (abi, handlers) →
      handlers.get? j = some ev →
      errorsAt (validateEvents m load) (eventPath i j) =
        (if jsIncludes abi.eventSignatures ev then []
         else [⟨eventPath i j, eventMessage abi ev⟩]) ∧
      (∀ s, jsIncludes abi.eventSignatures (some s) = abi.eventSignatures.contains s) ∧
      (jsSortBy leStr abi.eventSignatures).Pairwise (fun a b => a ≤ b) ∧
      (jsSortBy leStr abi.eventSignatures).Perm abi.eventSignatures := by
  intro m load i ds abi handlers j ev hx hres hj
  refine ⟨?_, fun s => rfl, ?_, perm_jsSortBy leStr abi.eventSignatures⟩
  · unfold errorsAt validateEvents
    rw [filter_gatherAux_at hx ?hne]
    case hne =>
      intro k y _ hki e he
      rcases mem_eventOne e he with ⟨j', hpath⟩
      rw [hpath]
      intro hcontra
      exact hki (eventPath_inj.mp hcontra).1
    unfold eventOne
    rw [hres]
    show (gatherAux (fun j' ev' =>
        if jsIncludes abi.eventSignatures ev' then []
        else [⟨eventPath i j', eventMessage abi ev'⟩]) 0 handlers).filter
        (fun e => decide (e.path = eventPath i j)) = _
    rw [filter_gatherAux_at hj ?hne2]
    case hne2 =>
      intro k y _ hkj e he
      by_cases hc : (jsIncludes abi.eventSignatures y = true)
      · simp only [if_pos hc] at he
        simp at he
      · simp only [if_neg hc] at he
        simp at he
        rw [he]
        intro hcontra
        exact hkj (eventPath_inj.mp hcontra).2
    by_cases hc : (jsIncludes abi.eventSignatures ev = true)
    · rw [if_pos hc]
      rfl
    · rw [if_neg hc]
      exact filter_singleton_self rfl
  · have hp := pairwise_jsSortBy leStr_total leStr_trans abi.eventSignatures
    exact hp.imp (fun h => by simpa [leStr, decide_eq_true_eq] using h)

/-- Witness for C8: the verbatim signature passes, the absent one gets
the single error at its handler path. -/
theorem c8_event_exact_membership_witness :
    ((filteredDataSources c8m).get? 0 = some c8ds ∧
      resolveEventAbi c8loader c8ds = Except.ok (c8abi, c8handlers) ∧
      c8handlers.get? 1 = some (some "Bad()")) ∧
    errorsAt (validateEvents c8m c8loader) (eventPath 0 1) =
      (if jsIncludes c8abi.eventSignatures (some "Bad()") then []
       else [⟨eventPath 0 1, eventMessage c8abi (some "Bad()")⟩]) :=
  ⟨⟨rfl, rfl, rfl⟩,
    (c8_event_exact_membership c8m c8loader 0 c8ds c8abi c8handlers 1 (some "Bad()")
      rfl rfl rfl).1⟩

/-- C2 (amended): whenever no check throws, the combined sequence is
ordered by check category first — all ABI-reference errors (in filtered
data-source order), then all ABI-file errors, then all address errors,
then all event errors — not by data-source index first; within each
category the data-source order is preserved, the four checks run
independently and none short-circuits another. -/
theorem c2_category_major_order :
    ∀ (m : Manifest) (load : AbiLoader),
      (∀ d ∈ filteredDataSources m, d.mappingAbis.isSome) →
      ∃ refErrs fileErrs,
        abiReferenceErrors m = Except.ok refErrs ∧
        abiFileErrors m load = Except.ok fileErrs ∧
        crossValidate m load = Except.ok
          (refErrs ++ fileErrs ++ validateContractAddresses m ++
            validateEvents m load) := by
  intro m load hall
  refine ⟨_, _, abiReferenceErrors_ok hall, abiFileErrors_ok hall, ?_⟩
  unfold crossValidate
  rw [validateAbis_ok hall]

/-- C2 counterexample: data source 0 has only an address error and data
source 1 only an ABI-reference error, yet data source 1's error comes
first in the combined sequence — the order is category-major, not
data-source-major. -/
theorem c2_counterexample :
    crossValidate c2m okLoader = Except.ok
      [⟨abiRefPath 1, abiRefMessage (some "B") [some "A"]⟩,
       ⟨addressPath 0, addressMessage (some "zz")⟩] := rfl

/-- Witness for C2 at the concrete two-data-source manifest. -/
theorem c2_category_major_order_witness :
    (∀ d ∈ filteredDataSources c2m, d.mappingAbis.isSome) ∧
    (∃ refErrs fileErrs,
      abiReferenceErrors c2m = Except.ok refErrs ∧
      abiFileErrors c2m okLoader = Except.ok fileErrs ∧
      crossValidate c2m okLoader = Except.ok
        (refErrs ++ fileErrs ++ validateContractAddresses c2m ++
          validateEvents c2m okLoader)) :=
  ⟨by decide, c2_category_major_order c2m okLoader (by decide)⟩

end GraphCli
